import Mathlib

/-!
Verification of the S-box circuit-synthesis system (sbox-bgc).

This file gives a shallow embedding, in Lean 4, of the parts of the Python
source relevant to the checked properties:

* `src/gec_solver/utils.py` — `tobits`, `validate_sbox`;
* `src/gec_solver/sbox_converter.py` — `decompose_output`;
* `src/gec_solver/gec_optimizer.py` — depth-structure enumeration and the
  search loop of `optimize_sbox`;
* `src/gec_solver/cvc_generator.py` — the connectivity / gate-type /
  output-selection / cost-ceiling constraints (modelled at the level of
  which disjuncts each emitted `ASSERT` offers);
* `src/solver/bgc_optimizer.py` — the BGC constraint generator and its
  error handling;
* `src/solver/gate_library.py` — the gate catalogue and its validation;
* `src/gec_solver/stp_solver.py` — verdict parsing and the timeout result.

Python loops become structural recursions or `List.range` maps; Python
exceptions become `Except String`; the external STP process is an oracle
parameter.  Machine integers do not occur (Python integers are unbounded);
the one place where a fixed width matters (`tobits(num, 8)`) is modelled
exactly as the source computes it, digit by digit.
-/

set_option maxHeartbeats 1000000

namespace SboxBGC

/-! ## src/gec_solver/utils.py -/

/-- Embeds `tobits(num, bit_len)` from `src/gec_solver/utils.py` (lines 50–65):
starting from the empty string, the loop runs `bit_len` times, each time
prepending `str(num % 2)` and halving `num`.  The recursion below produces
the same string: the last character is `num % 2` and the preceding
characters are `tobits(num // 2, bit_len - 1)`. -/
def tobits (num : Nat) : Nat → String
  | 0 => ""
  | bit_len + 1 => tobits (num / 2) bit_len ++ toString (num % 2)

/-- Numeric value of a binary string, most significant digit first (used to
state what `tobits` computes). -/
def binVal (s : String) : Nat :=
  s.data.foldl (fun acc c => 2 * acc + (if c = '1' then 1 else 0)) 0

/-- The total-cost ceiling assertion emitted by
`CVCGenerator.generate_logic_constraints` (src/gec_solver/cvc_generator.py,
line 241): `ASSERT( BVLT(GEC , 0bin{tobits(min_gec, 8)}) );`. -/
def ceiling_constraint (min_gec : Nat) : String :=
  "ASSERT( BVLT(GEC , 0bin" ++ tobits min_gec 8 ++ ") );\n"

/-- Embeds `validate_sbox(sbox, bit_num)` from `src/gec_solver/utils.py`
(lines 90–115): checks the length is `2 ** bit_num`, every value is within
`[0, 2 ** bit_num - 1]`, and all values are pairwise distinct
(`len(set(sbox)) == len(sbox)`). -/
def validate_sbox (sbox : List Int) (bit_num : Nat) : Bool :=
  let expected_size := 2 ^ bit_num
  if sbox.length ≠ expected_size then false
  else if ¬ (sbox.all fun v => decide (0 ≤ v) && decide (v ≤ (expected_size : Int) - 1)) then
    false
  else if sbox.dedup.length ≠ sbox.length then false
  else true

/-! ### Helper lemmas about `tobits` -/

theorem binVal_append_digit (s : String) (d : Nat) (hd : d = 0 ∨ d = 1) :
    binVal (s ++ toString d) = 2 * binVal s + d := by
  have h0 : (toString (0 : Nat)).data = ['0'] := rfl
  have h1 : (toString (1 : Nat)).data = ['1'] := rfl
  rcases hd with h | h <;> subst h
  · rw [binVal, String.data_append, h0, List.foldl_append]
    simp [binVal]
  · rw [binVal, String.data_append, h1, List.foldl_append]
    simp [binVal]

theorem tobits_length (num bit_len : Nat) : (tobits num bit_len).length = bit_len := by
  induction bit_len generalizing num with
  | zero => rfl
  | succ n ih =>
    show (tobits (num / 2) n ++ toString (num % 2)).length = n + 1
    rw [String.length_append, ih]
    have h2 : num % 2 = 0 ∨ num % 2 = 1 := Nat.mod_two_eq_zero_or_one num
    have : (toString (num % 2)).length = 1 := by
      rcases h2 with h | h <;> rw [h] <;> rfl
    omega

theorem binVal_tobits (num bit_len : Nat) :
    binVal (tobits num bit_len) = num % 2 ^ bit_len := by
  induction bit_len generalizing num with
  | zero => simp [tobits, binVal, Nat.mod_one]
  | succ n ih =>
    show binVal (tobits (num / 2) n ++ toString (num % 2)) = num % 2 ^ (n + 1)
    rw [binVal_append_digit _ _ (Nat.mod_two_eq_zero_or_one num), ih]
    have hpow : (2 : Nat) ^ (n + 1) = 2 * 2 ^ n := by ring
    rw [hpow]
    have hmul : num % (2 * 2 ^ n) = num % 2 + 2 * (num / 2 % 2 ^ n) := Nat.mod_mul
    omega

theorem tobits_mod (num bit_len : Nat) :
    tobits num bit_len = tobits (num % 2 ^ bit_len) bit_len := by
  induction bit_len generalizing num with
  | zero => rfl
  | succ n ih =>
    have hdiv : num % 2 ^ (n + 1) / 2 = num / 2 % 2 ^ n := by
      have : (2 : Nat) ^ (n + 1) = 2 * 2 ^ n := by ring
      rw [this, Nat.mod_mul_right_div_self]
    have hmod : num % 2 ^ (n + 1) % 2 = num % 2 := by
      apply Nat.mod_mod_of_dvd
      exact ⟨2 ^ n, by ring⟩
    calc tobits num (n + 1) = tobits (num / 2) n ++ toString (num % 2) := rfl
      _ = tobits (num / 2 % 2 ^ n) n ++ toString (num % 2) := by rw [ih (num / 2)]
      _ = tobits (num % 2 ^ (n + 1) / 2) n ++ toString (num % 2 ^ (n + 1) % 2) := by
          rw [hdiv, hmod]
      _ = tobits (num % 2 ^ (n + 1)) (n + 1) := rfl

/-- Claim C10 (confirmed).  `tobits(num, bit_len)` is the `bit_len`-character
binary representation of `num mod 2^bit_len`; consequently the cost-ceiling
assertion emitted by the cost-variant encoder uses the ceiling reduced
modulo 256, so a ceiling of 256 is silently encoded as 0 rather than being
rejected or encoded exactly. -/
theorem C10_tobits_truncates_mod_256 :
    (∀ num bit_len, (tobits num bit_len).length = bit_len) ∧
    (∀ num bit_len, binVal (tobits num bit_len) = num % 2 ^ bit_len) ∧
    (∀ min_gec, ceiling_constraint min_gec = ceiling_constraint (min_gec % 256)) ∧
    ceiling_constraint 256 = ceiling_constraint 0 ∧
    tobits 256 8 = "00000000" := by
  refine ⟨tobits_length, binVal_tobits, ?_, ?_, ?_⟩
  · intro min_gec
    unfold ceiling_constraint
    rw [tobits_mod min_gec 8]
    norm_num
  · rfl
  · rfl

/-! ### `validate_sbox` -/

theorem dedup_length_eq_iff (l : List Int) : l.dedup.length = l.length ↔ l.Nodup := by
  constructor
  · intro h
    have hsub : l.dedup.Sublist l := l.dedup_sublist
    have := hsub.eq_of_length h
    simpa [this] using l.nodup_dedup
  · intro h
    rw [h.dedup]

theorem validate_all_iff (sbox : List Int) (c : Nat) :
    ((sbox.all fun v => decide (0 ≤ v) && decide (v ≤ (c : Int) - 1)) = true) ↔
      ∀ v ∈ sbox, 0 ≤ v ∧ v < (c : Int) := by
  simp only [List.all_eq_true, Bool.and_eq_true, decide_eq_true_eq]
  constructor <;> intro h v hv <;> have := h v hv <;> omega

theorem ite3_true_iff (p q r : Prop) [Decidable p] [Decidable q] [Decidable r] :
    ((if p then false else if q then false else if r then false else true) = true) ↔
      (¬p ∧ ¬q ∧ ¬r) := by
  by_cases hp : p <;> by_cases hq : q <;> by_cases hr : r <;> simp [hp, hq, hr]

/-- Characterization of `validate_sbox` (shared helper). -/
theorem validate_sbox_char (sbox : List Int) (bit_num : Nat) :
    validate_sbox sbox bit_num = true ↔
      (sbox.length = 2 ^ bit_num ∧
       (∀ v ∈ sbox, 0 ≤ v ∧ v < ((2 ^ bit_num : Nat) : Int)) ∧
       sbox.Nodup) := by
  have hdef : validate_sbox sbox bit_num =
      (if sbox.length ≠ 2 ^ bit_num then false
       else if ¬ (sbox.all fun v =>
           decide (0 ≤ v) && decide (v ≤ ((2 ^ bit_num : Nat) : Int) - 1)) then false
       else if sbox.dedup.length ≠ sbox.length then false
       else true) := rfl
  rw [hdef, ite3_true_iff]
  constructor
  · rintro ⟨n1, n2, n3⟩
    exact ⟨not_not.mp n1,
      (validate_all_iff sbox (2 ^ bit_num)).mp (not_not.mp n2),
      (dedup_length_eq_iff sbox).mp (not_not.mp n3)⟩
  · rintro ⟨h1, h2, h3⟩
    exact ⟨not_not_intro h1,
      not_not_intro ((validate_all_iff sbox (2 ^ bit_num)).mpr h2),
      not_not_intro ((dedup_length_eq_iff sbox).mpr h3)⟩

/-- Claim C9 (confirmed).  The S-box validator is a total boolean function:
it returns `true` exactly when the list has length `2^bit_width`, every
value lies in `[0, 2^bit_width)`, and the values are pairwise distinct;
otherwise it returns `false` (the source contains no `raise`). -/
theorem C9_validate_sbox_iff (sbox : List Int) (bit_num : Nat) :
    validate_sbox sbox bit_num = true ↔
      (sbox.length = 2 ^ bit_num ∧
       (∀ v ∈ sbox, 0 ≤ v ∧ v < ((2 ^ bit_num : Nat) : Int)) ∧
       sbox.Nodup) :=
  validate_sbox_char sbox bit_num

/-! ## src/gec_solver/sbox_converter.py -/

/-- The inner loop of `SboxConverter.decompose_output` (lines 87–91): for a
single value `temp = sbox[i]`, the loop over `j = bit_num-1, …, 0` stores
`temp % 2` at row `j` and floor-halves `temp`.  The resulting column (row
index ascending, i.e. most significant bit first) is captured here:
`colBits v n = [bit_{n-1}(v), …, bit_0(v)]`.  Python's `%` and `//` with a
positive divisor agree with `Int`'s Euclidean `%` and `/`. -/
def colBits (v : Int) : Nat → List Int
  | 0 => []
  | n + 1 => colBits (v / 2) n ++ [v % 2]

/-- Embeds `SboxConverter.decompose_output` (src/gec_solver/sbox_converter.py,
lines 70–94): validates the S-box (the source raises `ValueError` on an
invalid one, modelled as `none`), then fills
`output_matrix[j][i] = bit j of sbox[i]` (row 0 = most significant bit). -/
def decompose_output (bit_num : Nat) (sbox : List Int) : Option (List (List Int)) :=
  if validate_sbox sbox bit_num then
    some ((List.range bit_num).map fun j =>
      (List.range (2 ^ bit_num)).map fun i => (colBits (sbox.getD i 0) bit_num).getD j 0)
  else none

/-- Modelled from the spec: re-composition of per-bit truth vectors —
"reading bit `j` of each vector back at position `i`, most significant
vector first" (spec §8 / §4.1).  Horner evaluation over the rows. -/
def recompose (A : List (List Int)) (i : Nat) : Int :=
  A.foldl (fun acc row => 2 * acc + row.getD i 0) 0

/-- Nat version of `colBits`, used to bridge proofs into `Nat` arithmetic. -/
def colBitsN (m : Nat) : Nat → List Nat
  | 0 => []
  | n + 1 => colBitsN (m / 2) n ++ [m % 2]

theorem colBits_ofNat (m : Nat) (n : Nat) :
    colBits ((m : Nat) : Int) n = (colBitsN m n).map (fun b => ((b : Nat) : Int)) := by
  induction n generalizing m with
  | zero => rfl
  | succ k ih =>
    have hdiv : ((m : Nat) : Int) / 2 = ((m / 2 : Nat) : Int) := by omega
    have hmod : ((m : Nat) : Int) % 2 = ((m % 2 : Nat) : Int) := by omega
    show colBits (((m : Nat) : Int) / 2) k ++ [((m : Nat) : Int) % 2] = _
    rw [hdiv, hmod, ih (m / 2)]
    simp [colBitsN]

theorem colBitsN_length (m n : Nat) : (colBitsN m n).length = n := by
  induction n generalizing m with
  | zero => rfl
  | succ k ih => simp [colBitsN, ih]

theorem hornerN_colBitsN (m n : Nat) :
    (colBitsN m n).foldl (fun acc b => 2 * acc + b) 0 = m % 2 ^ n := by
  induction n generalizing m with
  | zero => simp [colBitsN, Nat.mod_one]
  | succ k ih =>
    show (colBitsN (m / 2) k ++ [m % 2]).foldl (fun acc b => 2 * acc + b) 0 = _
    rw [List.foldl_append, ih (m / 2)]
    have hpow : (2 : Nat) ^ (k + 1) = 2 * 2 ^ k := by ring
    rw [hpow]
    have hmul : m % (2 * 2 ^ k) = m % 2 + 2 * (m / 2 % 2 ^ k) := Nat.mod_mul
    simp only [List.foldl_cons, List.foldl_nil]
    omega

theorem horner_map_ofNat (l : List Nat) (a : Nat) :
    (l.map (fun b => ((b : Nat) : Int))).foldl (fun acc b => 2 * acc + b) ((a : Nat) : Int) =
      ((l.foldl (fun acc b => 2 * acc + b) a : Nat) : Int) := by
  induction l generalizing a with
  | nil => rfl
  | cons x xs ih =>
    simp only [List.map_cons, List.foldl_cons]
    have h : 2 * ((a : Nat) : Int) + ((x : Nat) : Int) = ((2 * a + x : Nat) : Int) := by
      push_cast
      ring
    rw [h, ih]

/-- Folding `f acc (l.getD j 0)` over `j = 0, …, l.length - 1` is the same
as folding over the list itself. -/
theorem foldl_range_getD (l : List Int) (f : Int → Int → Int) (a : Int) :
    (List.range l.length).foldl (fun acc j => f acc (l.getD j 0)) a = l.foldl f a := by
  induction l generalizing a with
  | nil => rfl
  | cons x xs ih =>
    rw [List.length_cons, List.range_succ_eq_map]
    simp only [List.foldl_cons, List.foldl_map, List.getD_cons_zero, List.getD_cons_succ]
    exact ih (f a x)

theorem colBits_length (v : Int) (n : Nat) : (colBits v n).length = n := by
  induction n generalizing v with
  | zero => rfl
  | succ k ih =>
    show (colBits (v / 2) k ++ [v % 2]).length = k + 1
    simp [ih]

theorem getD_map_range (sz i : Nat) (hi : i < sz) (f : Nat → Int) :
    (((List.range sz).map f).getD i 0) = f i := by
  rw [List.getD_eq_getElem?_getD, List.getElem?_map, List.getElem?_range hi]
  rfl

/-- Claim C5 (confirmed).  For every bit width and every mapping accepted by
the validator (in particular every permutation of size `2^n`), decomposing
into per-bit truth vectors with `decompose_output` and recomposing by
reading bit `j` of each vector at position `i` (most significant vector
first) reconstructs the original mapping at every domain point. -/
theorem C5_decompose_recompose (bit_num : Nat) (sbox : List Int)
    (hval : validate_sbox sbox bit_num = true) (i : Nat) (hi : i < 2 ^ bit_num) :
    ∃ A, decompose_output bit_num sbox = some A ∧ recompose A i = sbox.getD i 0 := by
  refine ⟨_, by rw [decompose_output, if_pos hval], ?_⟩
  obtain ⟨hlen, hrange, -⟩ := (validate_sbox_char sbox bit_num).mp hval
  have hilen : i < sbox.length := by rw [hlen]; exact hi
  have hmem : sbox.getD i 0 ∈ sbox := by
    rw [List.getD_eq_getElem?_getD, List.getElem?_eq_getElem hilen]
    exact List.getElem_mem hilen
  obtain ⟨h0, hlt⟩ := hrange _ hmem
  obtain ⟨m, hm⟩ := Int.eq_ofNat_of_zero_le h0
  have hmlt : m < 2 ^ bit_num := by
    rw [hm] at hlt
    exact_mod_cast hlt
  unfold recompose
  rw [List.foldl_map]
  have hfold :
      (List.range bit_num).foldl
        (fun acc j => 2 * acc + ((List.range (2 ^ bit_num)).map
          (fun i' => (colBits (sbox.getD i' 0) bit_num).getD j 0)).getD i 0) 0 =
      (List.range bit_num).foldl
        (fun acc j => 2 * acc + (colBits (sbox.getD i 0) bit_num).getD j 0) 0 := by
    apply List.foldl_ext
    intro acc j hj
    rw [getD_map_range _ _ hi]
  rw [hfold, hm]
  have hr : List.range bit_num = List.range ((colBits ((m : Nat) : Int) bit_num).length) := by
    rw [colBits_length]
  rw [hr, foldl_range_getD, colBits_ofNat]
  have h2 := horner_map_ofNat (colBitsN m bit_num) 0
  rw [Nat.cast_zero] at h2
  rw [h2, hornerN_colBitsN, Nat.mod_eq_of_lt hmlt]

/-- Witness for C5 at the concrete 2-bit permutation `[0, 1, 3, 2]`. -/
theorem C5_decompose_recompose_witness :
    validate_sbox [0, 1, 3, 2] 2 = true ∧ 2 < 2 ^ 2 ∧
      ∃ A, decompose_output 2 [0, 1, 3, 2] = some A ∧
        recompose A 2 = ([0, 1, 3, 2] : List Int).getD 2 0 :=
  ⟨by decide, by decide, C5_decompose_recompose 2 [0, 1, 3, 2] (by decide) 2 (by decide)⟩

/-! ## src/gec_solver/gec_optimizer.py — structure enumeration -/


/-- The recursive body of `GECOptimizer._combination_impl`
(src/gec_solver/gec_optimizer.py, lines 83–115).  The Python function
recurses with `target - option` for each `option ≤ target` drawn from
`options = [1, …, gate_num]`, appending `option` to `current`; it records
`current` when `target == 0` and `len(current) == max_length`, and returns
early when `len(current) ≥ max_length`.  Lean needs a structurally
decreasing argument, so the remaining length budget
`rem = max_length - current.length` — the quantity the Python recursion
drives to zero — is passed explicitly; `combination_impl` below supplies it,
and every recursive call keeps it in step with `current` (one element
appended, `rem` decremented), so `rem = 0` is exactly the source's
`len(current) >= max_length` early return. -/
def combination_go (g : Nat) : Nat → List Nat → Nat → Nat → List (List Nat)
  | 0, current, maxLength, _ =>
      if current.length = maxLength then [current] else []
  | _ + 1, _, _, 0 => []
  | t + 1, current, maxLength, rem' + 1 =>
      ((List.range' 1 g).filter fun o => o ≤ t + 1).flatMap fun o =>
        combination_go g (t + 1 - o) (current ++ [o]) maxLength rem'

/-- Embeds `GECOptimizer._combination_impl(options, target, current, max_length,
results)` with `options = list(range(1, gate_num + 1))`. -/
def combination_impl (g target : Nat) (current : List Nat) (maxLength : Nat) :
    List (List Nat) :=
  combination_go g target current maxLength (maxLength - current.length)

/-- The loop body of `GECOptimizer._is_valid_structure`
(src/gec_solver/gec_optimizer.py, lines 117–136), processing the reversed
structure with state `(gates_so_far, gates_used)`. -/
def is_valid_aux : Nat → Nat → List Nat → Bool
  | _, _, [] => true
  | gates_so_far, gates_used, level_gates :: rest =>
    if gates_so_far + gates_used < level_gates then false
    else is_valid_aux (2 * level_gates) (gates_so_far + gates_used - level_gates) rest

/-- Embeds `GECOptimizer._is_valid_structure(structure)`: starts from
`gates_so_far = bit_num`, `gates_used = 0` and folds over the reversed
structure. -/
def is_valid_structure (bit_num : Nat) (struct : List Nat) : Bool :=
  is_valid_aux bit_num 0 struct.reverse

/-- Embeds `GECOptimizer.generate_depth_combinations(gate_num, max_depth)`
(src/gec_solver/gec_optimizer.py, lines 51–81): for each depth
`1 ≤ depth ≤ min(max_depth, gate_num)` it collects the compositions produced
by `_combination_impl` and keeps those passing `_is_valid_structure`. -/
def generate_depth_combinations (bit_num gate_num max_depth : Nat) :
    List (List Nat) :=
  (List.range' 1 (min max_depth gate_num)).flatMap fun depth =>
    (combination_impl gate_num gate_num [] depth).filter (is_valid_structure bit_num)

theorem mem_range'_one {s n m : Nat} : m ∈ List.range' s n ↔ s ≤ m ∧ m < s + n := by
  rw [List.mem_range']
  constructor
  · rintro ⟨i, hi, rfl⟩
    omega
  · intro h
    exact ⟨m - s, by omega, by omega⟩

theorem length_le_sum_of_pos (l : List Nat) (h : ∀ x ∈ l, 1 ≤ x) :
    l.length ≤ l.sum := by
  induction l with
  | nil => simp
  | cons a t ih =>
    simp only [List.length_cons, List.sum_cons]
    have ha := h a (List.mem_cons_self a t)
    have ht := ih fun x hx => h x (List.mem_cons_of_mem a hx)
    omega

/-- Full characterization of `combination_go`: the recorded lists are
exactly `current` extended by a composition of `target` into positive parts
at most `g`, reaching total length `maxLength` within the remaining budget
`rem`. -/
theorem combination_go_mem (g : Nat) :
    ∀ (rem target : Nat) (current : List Nat) (maxLength : Nat) (l : List Nat),
      l ∈ combination_go g target current maxLength rem ↔
        ∃ s : List Nat, l = current ++ s ∧ s.sum = target ∧
          current.length + s.length = maxLength ∧ s.length ≤ rem ∧
          ∀ x ∈ s, 1 ≤ x ∧ x ≤ g := by
  have hnil : ∀ (s : List Nat), s.sum = 0 → (∀ x ∈ s, 1 ≤ x ∧ x ≤ g) → s = [] := by
    intro s hsum hels
    cases s with
    | nil => rfl
    | cons a t =>
      have := (hels a (List.mem_cons_self a t)).1
      simp only [List.sum_cons] at hsum
      omega
  have hzero : ∀ (current : List Nat) (maxLength : Nat) (rem : Nat) (l : List Nat),
      l ∈ (if current.length = maxLength then [current] else ([] : List (List Nat))) ↔
        ∃ s : List Nat, l = current ++ s ∧ s.sum = 0 ∧
          current.length + s.length = maxLength ∧ s.length ≤ rem ∧
          ∀ x ∈ s, 1 ≤ x ∧ x ≤ g := by
    intro current maxLength rem l
    by_cases hlen : current.length = maxLength
    · rw [if_pos hlen]
      simp only [List.mem_singleton]
      constructor
      · rintro rfl
        exact ⟨[], by simp, rfl, by simpa using hlen, by simp, by simp⟩
      · rintro ⟨s, rfl, hsum, -, -, hels⟩
        simp [hnil s hsum hels]
    · rw [if_neg hlen]
      simp only [List.not_mem_nil, false_iff, not_exists]
      rintro s ⟨-, hsum, hl, -, hels⟩
      rw [hnil s hsum hels] at hl
      simp only [List.length_nil, Nat.add_zero] at hl
      exact hlen hl
  intro rem
  induction rem with
  | zero =>
    intro target current maxLength l
    cases target with
    | zero => exact hzero current maxLength 0 l
    | succ t =>
      show l ∈ ([] : List (List Nat)) ↔ _
      simp only [List.not_mem_nil, false_iff, not_exists]
      rintro s ⟨-, hsum, -, hs0, -⟩
      have : s = [] := List.eq_nil_of_length_eq_zero (Nat.le_zero.mp hs0)
      subst this
      simp at hsum
  | succ rem' ih =>
    intro target current maxLength l
    cases target with
    | zero => exact hzero current maxLength (rem' + 1) l
    | succ t =>
      show l ∈ ((List.range' 1 g).filter fun o => o ≤ t + 1).flatMap
          (fun o => combination_go g (t + 1 - o) (current ++ [o]) maxLength rem') ↔ _
      simp only [List.mem_flatMap, List.mem_filter, decide_eq_true_eq]
      constructor
      · rintro ⟨o, ⟨hor, hole⟩, hgo⟩
        obtain ⟨ho1, ho2⟩ := mem_range'_one.mp hor
        obtain ⟨s', rfl, hsum', hlen', hrem', hels'⟩ := (ih _ _ _ _).mp hgo
        refine ⟨o :: s', by simp, ?_, ?_, ?_, ?_⟩
        · simp only [List.sum_cons]
          omega
        · simp only [List.length_append, List.length_cons, List.length_nil] at hlen' ⊢
          omega
        · simp only [List.length_cons]
          omega
        · intro x hx
          rcases List.mem_cons.mp hx with rfl | hx'
          · exact ⟨ho1, by omega⟩
          · exact hels' x hx'
      · rintro ⟨s, rfl, hsum, hlen2, hrem, hels⟩
        cases s with
        | nil => simp at hsum
        | cons o s' =>
          obtain ⟨ho1, hog⟩ := hels o (List.mem_cons_self o s')
          have hole : o ≤ t + 1 := by
            simp only [List.sum_cons] at hsum
            omega
          refine ⟨o, ⟨mem_range'_one.mpr ⟨ho1, by omega⟩, hole⟩, ?_⟩
          refine (ih _ _ _ _).mpr ⟨s', by simp, ?_, ?_, ?_, ?_⟩
          · simp only [List.sum_cons] at hsum
            omega
          · simp only [List.length_append, List.length_cons, List.length_nil] at hlen2 ⊢
            omega
          · simp only [List.length_cons] at hrem
            omega
          · intro x hx
            exact hels x (List.mem_cons_of_mem o hx)

/-- Characterization of `_combination_impl` at the top-level call
(`current = []`): exactly the compositions of `target` into `maxLength`
positive parts from `1..g`. -/
theorem combination_impl_mem (g target maxLength : Nat) (l : List Nat) :
    l ∈ combination_impl g target [] maxLength ↔
      (l.sum = target ∧ l.length = maxLength ∧ ∀ x ∈ l, 1 ≤ x ∧ x ≤ g) := by
  unfold combination_impl
  rw [combination_go_mem]
  constructor
  · rintro ⟨s, hls, hsum, hlen, -, hels⟩
    have hs : s = l := by simpa using hls.symm
    subst hs
    exact ⟨hsum, by simpa using hlen, hels⟩
  · rintro ⟨hsum, hlen, hels⟩
    refine ⟨l, by simp, hsum, ?_, ?_, hels⟩
    · simpa using hlen
    · simp only [List.length_nil]
      omega

/-- Claim C4 (confirmed).  For every gate count and max depth (and every bit
width, which parameterizes the feasibility check), the structure enumerator
returns exactly the ordered compositions of the gate count into at most
`max_depth` positive parts that pass the feasibility check: soundness and
exhaustiveness as a membership characterization. -/
theorem C4_generate_depth_combinations_mem (bit_num gate_num max_depth : Nat)
    (l : List Nat) :
    l ∈ generate_depth_combinations bit_num gate_num max_depth ↔
      (l.sum = gate_num ∧ 1 ≤ l.length ∧ l.length ≤ max_depth ∧
       (∀ x ∈ l, 0 < x) ∧ is_valid_structure bit_num l = true) := by
  unfold generate_depth_combinations
  simp only [List.mem_flatMap]
  constructor
  · rintro ⟨depth, hdep, hmem⟩
    rw [List.mem_filter] at hmem
    obtain ⟨hcomb, hvalid⟩ := hmem
    obtain ⟨hsum, hlen, hels⟩ := (combination_impl_mem _ _ _ _).mp hcomb
    obtain ⟨hd1, hd2⟩ := mem_range'_one.mp hdep
    exact ⟨hsum, by omega, by omega, fun x hx => (hels x hx).1, hvalid⟩
  · rintro ⟨hsum, hl1, hld, hpos, hvalid⟩
    have hlg : l.length ≤ gate_num := by
      have := length_le_sum_of_pos l fun x hx => hpos x hx
      omega
    refine ⟨l.length, mem_range'_one.mpr ⟨hl1, by omega⟩, ?_⟩
    rw [List.mem_filter]
    refine ⟨(combination_impl_mem _ _ _ _).mpr ⟨hsum, rfl, fun x hx => ⟨hpos x hx, ?_⟩⟩,
      hvalid⟩
    have hxs := List.le_sum_of_mem hx
    omega

/-! ## src/gec_solver/cvc_generator.py — constraint model

The generator writes CVC text to a file.  The claims about it concern which
disjuncts each emitted `ASSERT` offers, so the emitted constraints are
modelled as structured data: a signal is a primary input `X i` or a gate
output `T i`, and each constraint records the candidate signals of its
disjunction (for input-slot and output-selection constraints) or the
variable indices involved (for gate-operation and cost constraints). -/

/-- A signal name appearing in an emitted equality disjunct. -/
inductive Sig where
  | X : Nat → Sig
  | T : Nat → Sig
deriving DecidableEq, Repr

/-- One emitted constraint.  `slot d qg ql cands` is the connectivity
`ASSERT` for gate-input variable `Q_qg` (the `ql`-th input slot of a gate at
depth level `d`), offering the disjuncts `Q_qg = c` for `c ∈ cands`;
`gateOp t b qb` is the gate-evaluation `ASSERT` defining `T_t` from `B_b`
and `Q_qb..`; `outSel y cands` is the output-selection `ASSERT` for `Y_y`;
`costEq i` is `ASSERT( C_i = Cost[B_i] )`; `ceiling bits` is the
`BVLT(GEC, 0bin{bits})` assertion. -/
inductive Constr where
  | slot : Nat → Nat → Nat → List Sig → Constr
  | gateOp : Nat → Nat → Nat → Constr
  | outSel : Nat → List Sig → Constr
  | costEq : Nat → Constr
  | ceiling : String → Constr
deriving DecidableEq, Repr

/-- Candidates offered by one `Q` disjunction in
`CVCGenerator._generate_logic_sub_constraints`
(src/gec_solver/cvc_generator.py, lines 267–298): slots `q ∈ {0, 2}` and all
slots at depth level 0 offer every primary input; the gate-output
candidates are `T_0..T_{count_t-1}` where `count_t` is the parameter — the
number of gates at strictly lower depth levels (the special case
`depth_level == 0 and count_t == 0` closes the assertion after the inputs,
offering no `T`). -/
def gec_slot_cands (bit_num count_t depth_level q : Nat) : List Sig :=
  if depth_level = 0 ∨ q = 0 ∨ q = 2 then
    (List.range bit_num).map Sig.X ++
      (if depth_level = 0 ∧ count_t = 0 then [] else (List.range count_t).map Sig.T)
  else
    (List.range count_t).map Sig.T

/-- Embeds `CVCGenerator._generate_logic_sub_constraints(gates_in_level, count_q,
count_t, depth_level, count_b)` (lines 243–303): for each gate `k` of the
level, four `Q` slot constraints (`current_q = count_q + 4k + q`) followed
by the gate-operation constraint for `T_{count_t+k}` (the `T` candidate
range of the slots uses the *parameter* `count_t`, not the running
`current_t`). -/
def gec_sub_constraints (bit_num gates_in_level count_q count_t depth_level count_b : Nat) :
    List Constr :=
  (List.range gates_in_level).flatMap fun k =>
    ((List.range 4).map fun q =>
      Constr.slot depth_level (count_q + 4 * k + q) q
        (gec_slot_cands bit_num count_t depth_level q)) ++
    [Constr.gateOp (count_t + k) (count_b + k) (count_q + 4 * k)]

/-- The per-level loop of `CVCGenerator.generate_logic_constraints`
(lines 209–215): `count_q`, `count_t`, `count_b` accumulate
`4 * structure[d]`, `structure[d]`, `structure[d]` per level. -/
def gec_levels (bit_num : Nat) :
    List Nat → Nat → Nat → Nat → Nat → List Constr
  | [], _, _, _, _ => []
  | g :: rest, d, count_q, count_t, count_b =>
      gec_sub_constraints bit_num g count_q count_t d count_b ++
        gec_levels bit_num rest (d + 1) (count_q + 4 * g) (count_t + g) (count_b + g)

/-- Embeds `CVCGenerator.generate_logic_constraints(gate_num, min_gec, depth,
depth_structure)` (lines 183–241), with `depth = len(depth_structure)` as
all callers pass it: level constraints, then one output-selection
disjunction `Y_y = T_0 ∨ … ∨ Y_y = T_{gate_num-1}` per output bit, then the
cost equations and the ceiling assertion. -/
def generate_logic_constraints (bit_num gate_num min_gec : Nat)
    (depth_structure : List Nat) : List Constr :=
  gec_levels bit_num depth_structure 0 0 0 0 ++
    ((List.range bit_num).map fun y =>
      Constr.outSel y ((List.range gate_num).map Sig.T)) ++
    ((List.range gate_num).map Constr.costEq) ++
    [Constr.ceiling (tobits min_gec 8)]

/-! ## src/solver/bgc_optimizer.py — BGC constraint model -/

/-- Candidates offered by one `Q` disjunction in
`BGCConstraintGenerator._generate_depth_constraints`
(src/solver/bgc_optimizer.py, lines 149–197).  At depth 0 the assertion is
closed right after the primary inputs (the subsequent `T` loop writes
outside any assertion — no `T` disjunct is offered).  At deeper levels,
slot 0 (and every slot when `parallel` is false) offers the inputs and then
`T_0..T_{current_t-1}`; other slots offer only the `T` range.  Crucially
`current_t` is the *running* counter `count_t + k`, which includes gates
already placed at the same depth level. -/
def bgc_slot_cands (bit_num current_t depth q : Nat) (parallel : Bool) : List Sig :=
  if depth = 0 then
    (List.range bit_num).map Sig.X
  else if q = 0 ∨ parallel = false then
    (List.range bit_num).map Sig.X ++ (List.range current_t).map Sig.T
  else
    (List.range current_t).map Sig.T

/-- Embeds `BGCConstraintGenerator._generate_depth_constraints(gates_at_depth,
count_q, count_t, depth, parallel)`: two slots per gate (`current_q =
count_q + 2k + q`), then the gate operation for `T_{count_t+k}` (which also
uses `B_{count_t+k}`). -/
def bgc_depth_constraints (bit_num gates_at_depth count_q count_t depth : Nat)
    (parallel : Bool) : List Constr :=
  (List.range gates_at_depth).flatMap fun k =>
    ((List.range 2).map fun q =>
      Constr.slot depth (count_q + 2 * k + q) q
        (bgc_slot_cands bit_num (count_t + k) depth q parallel)) ++
    [Constr.gateOp (count_t + k) (count_t + k) (count_q + 2 * k)]

/-- The per-level loop of `BGCConstraintGenerator.generate_gate_constraints`
(lines 128–137): `count_q += 2 * structure[d]`, `count_t += structure[d]`. -/
def bgc_levels (bit_num : Nat) :
    List Nat → Nat → Nat → Nat → Bool → List Constr
  | [], _, _, _, _ => []
  | g :: rest, d, count_q, count_t, par =>
      bgc_depth_constraints bit_num g count_q count_t d par ++
        bgc_levels bit_num rest (d + 1) (count_q + 2 * g) (count_t + g) par

/-- Embeds `BGCConstraintGenerator.generate_gate_constraints(gate_num, depth,
structure, parallel)` (lines 119–147), with `depth = len(structure)`:
level constraints then the output-selection disjunctions. -/
def bgc_generate_gate_constraints (bit_num gate_num : Nat) (struct : List Nat)
    (parallel : Bool) : List Constr :=
  bgc_levels bit_num struct 0 0 0 parallel ++
    ((List.range bit_num).map fun y =>
      Constr.outSel y ((List.range gate_num).map Sig.T))

theorem gec_slot_cands_T_mem (b ct d q j : Nat) :
    Sig.T j ∈ gec_slot_cands b ct d q ↔ j < ct := by
  unfold gec_slot_cands
  by_cases h : d = 0 ∨ q = 0 ∨ q = 2
  · rw [if_pos h]
    by_cases h2 : d = 0 ∧ ct = 0
    · rw [if_pos h2]
      simp [List.mem_append, List.mem_map, h2.2]
    · rw [if_neg h2]
      simp [List.mem_append, List.mem_map, List.mem_range]
  · rw [if_neg h]
    simp [List.mem_map, List.mem_range]

theorem gec_slot_cands_X_mem (b ct d q i : Nat) :
    Sig.X i ∈ gec_slot_cands b ct d q ↔ (i < b ∧ (d = 0 ∨ q = 0 ∨ q = 2)) := by
  unfold gec_slot_cands
  by_cases h : d = 0 ∨ q = 0 ∨ q = 2
  · rw [if_pos h]
    by_cases h2 : d = 0 ∧ ct = 0
    · rw [if_pos h2]
      simp [List.mem_append, List.mem_map, List.mem_range, h]
    · rw [if_neg h2]
      simp [List.mem_append, List.mem_map, List.mem_range, h]
  · rw [if_neg h]
    simp [List.mem_map, List.mem_range, h]

theorem bgc_slot_cands_T_mem (b ctk d q j : Nat) (par : Bool) :
    Sig.T j ∈ bgc_slot_cands b ctk d q par ↔ (d ≠ 0 ∧ j < ctk) := by
  unfold bgc_slot_cands
  by_cases h : d = 0
  · rw [if_pos h]
    simp [List.mem_map, h]
  · rw [if_neg h]
    by_cases h2 : q = 0 ∨ par = false
    · rw [if_pos h2]
      simp [List.mem_append, List.mem_map, List.mem_range, h]
    · rw [if_neg h2]
      simp [List.mem_map, List.mem_range, h]

/-- Inversion for slots generated by the GEC per-level loop: a slot
constraint at depth `d` offers `T` candidates drawn from
`count_t + (sum of the level sizes strictly before level d)` gates. -/
theorem gec_levels_slot_inv (b : Nat) (l : List Nat) :
    ∀ (d0 cq ct cb d qg ql : Nat) (cands : List Sig),
      Constr.slot d qg ql cands ∈ gec_levels b l d0 cq ct cb →
      d0 ≤ d ∧ d - d0 < l.length ∧ ql < 4 ∧
        cands = gec_slot_cands b (ct + ((l.take (d - d0)).sum)) d ql := by
  induction l with
  | nil =>
    intro d0 cq ct cb d qg ql cands h
    simp [gec_levels] at h
  | cons g rest ih =>
    intro d0 cq ct cb d qg ql cands h
    rcases List.mem_append.mp h with h1 | h2
    · unfold gec_sub_constraints at h1
      simp only [List.mem_flatMap, List.mem_range, List.mem_append, List.mem_map,
        List.mem_singleton] at h1
      obtain ⟨k, hk, h1⟩ := h1
      rcases h1 with ⟨q, hq, heq⟩ | heq
      · obtain ⟨hd, -, hql, hcands⟩ := Constr.slot.inj heq
        subst hd
        refine ⟨Nat.le_refl _, by simp, by omega, ?_⟩
        rw [Nat.sub_self]
        simpa [hql] using hcands.symm
      · exact absurd heq (by simp)
    · obtain ⟨hd0, hlt, hql, hc⟩ := ih (d0 + 1) (cq + 4 * g) (ct + g) (cb + g) d qg ql cands h2
      refine ⟨by omega, ?_, hql, ?_⟩
      · simp only [List.length_cons]
        omega
      · have hm : d - d0 = (d - (d0 + 1)) + 1 := by omega
        have harith : ct + (((g :: rest).take (d - d0)).sum) =
            ct + g + ((rest.take (d - (d0 + 1))).sum) := by
          rw [hm, List.take_succ_cons, List.sum_cons]
          omega
        rw [harith]
        exact hc

/-- Inversion for slots generated by the BGC per-level loop: the `T`
candidate bound is the running counter `count_t + prefix + k` for the
`k`-th gate of its level. -/
theorem bgc_levels_slot_inv (b : Nat) (par : Bool) (l : List Nat) :
    ∀ (d0 cq ct d qg ql : Nat) (cands : List Sig),
      Constr.slot d qg ql cands ∈ bgc_levels b l d0 cq ct par →
      d0 ≤ d ∧ d - d0 < l.length ∧ ql < 2 ∧
        ∃ k, k < l.getD (d - d0) 0 ∧
          cands = bgc_slot_cands b (ct + ((l.take (d - d0)).sum) + k) d ql par := by
  induction l with
  | nil =>
    intro d0 cq ct d qg ql cands h
    simp [bgc_levels] at h
  | cons g rest ih =>
    intro d0 cq ct d qg ql cands h
    rcases List.mem_append.mp h with h1 | h2
    · unfold bgc_depth_constraints at h1
      simp only [List.mem_flatMap, List.mem_range, List.mem_append, List.mem_map,
        List.mem_singleton] at h1
      obtain ⟨k, hk, h1⟩ := h1
      rcases h1 with ⟨q, hq, heq⟩ | heq
      · obtain ⟨hd, -, hql, hcands⟩ := Constr.slot.inj heq
        subst hd
        refine ⟨Nat.le_refl _, by simp, by omega, k, ?_, ?_⟩
        · rw [Nat.sub_self]
          simpa using hk
        · rw [Nat.sub_self]
          simpa [hql] using hcands.symm
      · exact absurd heq (by simp)
    · obtain ⟨hd0, hlt, hql, k, hk, hc⟩ :=
        ih (d0 + 1) (cq + 2 * g) (ct + g) d qg ql cands h2
      refine ⟨by omega, ?_, hql, k, ?_, ?_⟩
      · simp only [List.length_cons]
        omega
      · have hm : d - d0 = (d - (d0 + 1)) + 1 := by omega
        rw [hm]
        simpa using hk
      · have hm : d - d0 = (d - (d0 + 1)) + 1 := by omega
        have harith : ct + (((g :: rest).take (d - d0)).sum) + k =
            ct + g + ((rest.take (d - (d0 + 1))).sum) + k := by
          rw [hm, List.take_succ_cons, List.sum_cons]
          omega
        rw [harith]
        exact hc

theorem sum_take_succ_getD (l : List Nat) (d : Nat) (hd : d < l.length) :
    (l.take (d + 1)).sum = (l.take d).sum + l.getD d 0 := by
  rw [List.take_succ, List.sum_append, List.getElem?_eq_getElem hd]
  simp [List.getD_eq_getElem?_getD, List.getElem?_eq_getElem hd]

theorem gec_generate_slot_inv (b g mg : Nat) (st : List Nat) (d qg ql : Nat)
    (cands : List Sig)
    (h : Constr.slot d qg ql cands ∈ generate_logic_constraints b g mg st) :
    d < st.length ∧ ql < 4 ∧ cands = gec_slot_cands b ((st.take d).sum) d ql := by
  unfold generate_logic_constraints at h
  rcases List.mem_append.mp h with h12 | hceil
  · rcases List.mem_append.mp h12 with hab | hcost
    · rcases List.mem_append.mp hab with h1 | hout
      · obtain ⟨-, hlt, hql, hc⟩ := gec_levels_slot_inv b st 0 0 0 0 d qg ql cands h1
        rw [Nat.sub_zero] at hlt
        rw [Nat.sub_zero, Nat.zero_add] at hc
        exact ⟨hlt, hql, hc⟩
      · exfalso
        simp only [List.mem_map, List.mem_range] at hout
        obtain ⟨y, -, heq⟩ := hout
        exact absurd heq (by simp)
    · exfalso
      simp only [List.mem_map, List.mem_range] at hcost
      obtain ⟨i, -, heq⟩ := hcost
      exact absurd heq (by simp)
  · exfalso
    simp at hceil

theorem bgc_generate_slot_inv (b g : Nat) (st : List Nat) (par : Bool)
    (d qg ql : Nat) (cands : List Sig)
    (h : Constr.slot d qg ql cands ∈ bgc_generate_gate_constraints b g st par) :
    d < st.length ∧ ql < 2 ∧
      ∃ k, k < st.getD d 0 ∧
        cands = bgc_slot_cands b ((st.take d).sum + k) d ql par := by
  unfold bgc_generate_gate_constraints at h
  rcases List.mem_append.mp h with h1 | h2
  · obtain ⟨-, hlt, hql, k, hk, hc⟩ := bgc_levels_slot_inv b par st 0 0 0 d qg ql cands h1
    rw [Nat.sub_zero] at hlt hk
    rw [Nat.sub_zero, Nat.zero_add] at hc
    exact ⟨hlt, hql, k, hk, hc⟩
  · exfalso
    simp only [List.mem_map, List.mem_range] at h2
    obtain ⟨y, -, heq⟩ := h2
    exact absurd heq (by simp)

/-- Claim C1, counterexample.  In the BGC generator with `bit_num = 2`,
structure `[1, 2]` (gate 0 at level 0; gates 1 and 2 at level 1), the first
input slot of gate 2 (variable `Q_4`) offers the disjunct `Q_4 = T_1` even
though gate 1 sits at the *same* depth level as gate 2: `1` is not below
the number of gates at strictly lower levels (`take 1` sums to `1`). -/
theorem C1_same_level_disjunct_counterexample :
    Constr.slot 1 4 0 [Sig.X 0, Sig.X 1, Sig.T 0, Sig.T 1]
        ∈ bgc_generate_gate_constraints 2 3 [1, 2] false ∧
      ¬ (1 < (([1, 2] : List Nat).take 1).sum) := by decide

/-- Claim C1 (corrected).  In the GEC generator every input-slot disjunction
offers gate outputs drawn exactly from the gates at strictly lower depth
levels, and primary inputs exactly on slots 0 and 2 and on all slots of
level 0.  In the BGC generator a slot never offers a gate from a *later*
level (every offered `T j` satisfies `j < sum of levels up to and including
the consuming one`, and none at level 0), but — as the counterexample
shows — it may offer earlier gates of the same level. -/
theorem C1_slot_candidate_levels (b g mg : Nat) (st : List Nat) (par : Bool)
    (d qg ql : Nat) (cands : List Sig) :
    (Constr.slot d qg ql cands ∈ generate_logic_constraints b g mg st →
      (∀ j, Sig.T j ∈ cands ↔ j < (st.take d).sum) ∧
      (∀ i, Sig.X i ∈ cands ↔ (i < b ∧ (d = 0 ∨ ql = 0 ∨ ql = 2)))) ∧
    (Constr.slot d qg ql cands ∈ bgc_generate_gate_constraints b g st par →
      ∀ j, Sig.T j ∈ cands → d ≠ 0 ∧ j < (st.take (d + 1)).sum) := by
  constructor
  · intro h
    obtain ⟨-, -, hc⟩ := gec_generate_slot_inv b g mg st d qg ql cands h
    subst hc
    exact ⟨fun j => gec_slot_cands_T_mem b _ d ql j,
      fun i => gec_slot_cands_X_mem b _ d ql i⟩
  · intro h j hj
    obtain ⟨hd, -, k, hk, hc⟩ := bgc_generate_slot_inv b g st par d qg ql cands h
    subst hc
    obtain ⟨hd0, hjlt⟩ := (bgc_slot_cands_T_mem b _ d ql j par).mp hj
    refine ⟨hd0, ?_⟩
    rw [sum_take_succ_getD st d hd]
    omega

/-- Witness for the GEC half of the corrected C1 at a concrete slot:
structure `[1, 1]`, slot 0 of the level-1 gate (variable `Q_4`) offers
`T_0` and both inputs, and `T_0` is the single strictly-lower-level gate. -/
theorem C1_slot_candidate_levels_witness :
    Constr.slot 1 4 0 [Sig.X 0, Sig.X 1, Sig.T 0]
        ∈ generate_logic_constraints 2 2 5 [1, 1] ∧
      (Sig.T 0 ∈ [Sig.X 0, Sig.X 1, Sig.T 0] ↔ 0 < (([1, 1] : List Nat).take 1).sum) :=
  ⟨by decide,
    ((C1_slot_candidate_levels 2 2 5 [1, 1] false 1 4 0
      [Sig.X 0, Sig.X 1, Sig.T 0]).1 (by decide)).1 0⟩

/-- Predicate picking out the output-selection constraint for `Y_y`. -/
def isOutSelFor (y : Nat) : Constr → Bool
  | Constr.outSel y' _ => decide (y' = y)
  | _ => false

theorem countP_range_eq (b y : Nat) :
    (List.range b).countP (fun y' => decide (y' = y)) = if y < b then 1 else 0 := by
  induction b with
  | zero => simp
  | succ n ih =>
    rw [List.range_succ, List.countP_append, ih, List.countP_cons, List.countP_nil]
    by_cases h : n = y
    · subst h
      rw [if_neg (lt_irrefl n), if_pos (Nat.lt_succ_self n)]
      simp
    · by_cases h2 : y < n
      · have hy : y < n + 1 := by omega
        rw [if_pos h2, if_pos hy]
        simp [h]
      · have hy : ¬ y < n + 1 := by omega
        rw [if_neg h2, if_neg hy]
        simp [h]

theorem gec_levels_outSel_false (b : Nat) (l : List Nat) :
    ∀ d0 cq ct cb (y : Nat), ∀ c ∈ gec_levels b l d0 cq ct cb,
      isOutSelFor y c = false := by
  induction l with
  | nil =>
    intro d0 cq ct cb y c hc
    simp [gec_levels] at hc
  | cons g rest ih =>
    intro d0 cq ct cb y c hc
    rcases List.mem_append.mp hc with h1 | h2
    · unfold gec_sub_constraints at h1
      simp only [List.mem_flatMap, List.mem_range, List.mem_append, List.mem_map,
        List.mem_singleton] at h1
      obtain ⟨k, -, h1⟩ := h1
      rcases h1 with ⟨q, -, rfl⟩ | rfl <;> rfl
    · exact ih _ _ _ _ y c h2

theorem bgc_levels_outSel_false (b : Nat) (par : Bool) (l : List Nat) :
    ∀ d0 cq ct (y : Nat), ∀ c ∈ bgc_levels b l d0 cq ct par,
      isOutSelFor y c = false := by
  induction l with
  | nil =>
    intro d0 cq ct y c hc
    simp [bgc_levels] at hc
  | cons g rest ih =>
    intro d0 cq ct y c hc
    rcases List.mem_append.mp hc with h1 | h2
    · unfold bgc_depth_constraints at h1
      simp only [List.mem_flatMap, List.mem_range, List.mem_append, List.mem_map,
        List.mem_singleton] at h1
      obtain ⟨k, -, h1⟩ := h1
      rcases h1 with ⟨q, -, rfl⟩ | rfl <;> rfl
    · exact ih _ _ _ y c h2

theorem countP_outSel_map (g y b : Nat) :
    ((List.range b).map fun y' => Constr.outSel y' ((List.range g).map Sig.T)).countP
        (isOutSelFor y) = if y < b then 1 else 0 := by
  rw [List.countP_map]
  have : (isOutSelFor y ∘ fun y' => Constr.outSel y' ((List.range g).map Sig.T)) =
      fun y' => decide (y' = y) := by
    funext y'
    rfl
  rw [this, countP_range_eq]

/-- Claim C3 (confirmed).  Both encoders emit, for each target output
variable `Y_y` with `y < bit_num`, exactly one output-selection constraint,
whose disjuncts range over exactly the gate outputs `T_0..T_{gate_num-1}`;
no disjunct equates `Y_y` with a primary input. -/
theorem C3_output_selection (b g mg : Nat) (st : List Nat) (par : Bool) (y : Nat)
    (cands : List Sig) :
    (Constr.outSel y cands ∈ generate_logic_constraints b g mg st ↔
      (y < b ∧ cands = (List.range g).map Sig.T)) ∧
    ((generate_logic_constraints b g mg st).countP (isOutSelFor y) =
      if y < b then 1 else 0) ∧
    (Constr.outSel y cands ∈ bgc_generate_gate_constraints b g st par ↔
      (y < b ∧ cands = (List.range g).map Sig.T)) ∧
    ((bgc_generate_gate_constraints b g st par).countP (isOutSelFor y) =
      if y < b then 1 else 0) ∧
    (∀ i, Sig.X i ∉ (List.range g).map Sig.T) := by
  refine ⟨?_, ?_, ?_, ?_, ?_⟩
  · unfold generate_logic_constraints
    constructor
    · intro h
      rcases List.mem_append.mp h with h12 | hceil
      · rcases List.mem_append.mp h12 with hab | hcost
        · rcases List.mem_append.mp hab with h1 | hout
          · have := gec_levels_outSel_false b st 0 0 0 0 y _ h1
            simp [isOutSelFor] at this
          · simp only [List.mem_map, List.mem_range] at hout
            obtain ⟨y', hy', heq⟩ := hout
            obtain ⟨hy, hc⟩ := Constr.outSel.inj heq
            exact ⟨hy ▸ hy', hc.symm⟩
        · simp only [List.mem_map, List.mem_range] at hcost
          obtain ⟨i, -, heq⟩ := hcost
          exact absurd heq (by simp)
      · simp at hceil
    · rintro ⟨hyb, rfl⟩
      refine List.mem_append.mpr (Or.inl (List.mem_append.mpr (Or.inl
        (List.mem_append.mpr (Or.inr ?_)))))
      simp only [List.mem_map, List.mem_range]
      exact ⟨y, hyb, rfl⟩
  · unfold generate_logic_constraints
    simp only [List.countP_append]
    have h1 : (gec_levels b st 0 0 0 0).countP (isOutSelFor y) = 0 :=
      List.countP_eq_zero.mpr fun c hc => by
        simp [gec_levels_outSel_false b st 0 0 0 0 y c hc]
    have h2 : ((List.range g).map Constr.costEq).countP (isOutSelFor y) = 0 :=
      List.countP_eq_zero.mpr fun c hc => by
        simp only [List.mem_map, List.mem_range] at hc
        obtain ⟨i, -, rfl⟩ := hc
        simp [isOutSelFor]
    have h3 : ([Constr.ceiling (tobits mg 8)]).countP (isOutSelFor y) = 0 := by
      simp [List.countP_cons, List.countP_nil, isOutSelFor]
    rw [h1, h2, h3, countP_outSel_map]
    omega
  · unfold bgc_generate_gate_constraints
    constructor
    · intro h
      rcases List.mem_append.mp h with h1 | hout
      · have := bgc_levels_outSel_false b par st 0 0 0 y _ h1
        simp [isOutSelFor] at this
      · simp only [List.mem_map, List.mem_range] at hout
        obtain ⟨y', hy', heq⟩ := hout
        obtain ⟨hy, hc⟩ := Constr.outSel.inj heq
        exact ⟨hy ▸ hy', hc.symm⟩
    · rintro ⟨hyb, rfl⟩
      refine List.mem_append.mpr (Or.inr ?_)
      simp only [List.mem_map, List.mem_range]
      exact ⟨y, hyb, rfl⟩
  · unfold bgc_generate_gate_constraints
    simp only [List.countP_append]
    have h1 : (bgc_levels b st 0 0 0 par).countP (isOutSelFor y) = 0 :=
      List.countP_eq_zero.mpr fun c hc => by
        simp [bgc_levels_outSel_false b par st 0 0 0 y c hc]
    rw [h1, countP_outSel_map]
    omega
  · intro i
    simp

/-! ## src/solver/gate_library.py and the gate-type constraints of
`CVCGenerator.generate_trivial_constraints` -/

/-- Embeds `GateLibrary.gate_types` (src/solver/gate_library.py, lines 28–46). -/
def gate_types : List String :=
  ["XOR", "XNOR", "AND", "NAND", "OR", "NOR", "NOT", "NOT", "NOT",
   "XOR3", "XNOR3", "AND3", "NAND3", "OR3", "NOR3", "MAOI1", "MOAI1"]

/-- Embeds `GateLibrary.gate_values` (lines 49–67). -/
def gate_values : List String :=
  ["0bin00000010", "0bin00000011", "0bin00000100", "0bin00000101",
   "0bin00000110", "0bin00000111", "0bin00001001", "0bin00001011",
   "0bin00010001", "0bin00010010", "0bin00010011", "0bin00100000",
   "0bin00100001", "0bin01110110", "0bin01110111", "0bin10110000",
   "0bin10110001"]

/-- Embeds `GateLibrary.validate_gate_list(gate_list)` (lines 167–181): every name
must appear in the catalogue. -/
def validate_gate_list (gate_list : List String) : Bool :=
  gate_list.all fun gate => gate_types.contains gate

/-- Embeds `GateLibrary.get_gate_value(gate_type)` (lines 136–150):
`gate_types.index(gate_type)` (first occurrence) into `gate_values`.  The
source raises `ValueError` for an unknown name; in the encoder flow this
lookup runs only after `validate_gate_list` has succeeded, so the `none`
branch is unreachable there and is mapped to `""`. -/
def get_gate_value (gate_type : String) : String :=
  match gate_types.findIdx? fun t => t == gate_type with
  | some i => gate_values.getD i ""
  | none => ""

/-- A gate-type constraint emitted for one `B_i`: either the disjunction
over an explicit list of allowed encodings, or the default bit-slice
pattern of lines 176–181. -/
inductive TypeConstr where
  | allowed : List String → TypeConstr
  | dflt : TypeConstr
deriving DecidableEq, Repr

/-- The gate-type part of `CVCGenerator.generate_trivial_constraints`
(src/gec_solver/cvc_generator.py, lines 161–181).  Python's
`if gate_list and len(gate_list) > 0 and len(gate_list) < 17` treats `None`
and the empty list as falsy, so both fall through to the default pattern;
inside the branch an invalid list raises
`ValueError("Invalid gate types in gate_list")`, modelled as
`Except.error`. -/
def generate_type_constraints (gate_num : Nat) (gate_list : Option (List String)) :
    Except String (List TypeConstr) :=
  match gate_list with
  | some gl =>
      if 0 < gl.length ∧ gl.length < 17 then
        if validate_gate_list gl = false then
          Except.error "Invalid gate types in gate_list"
        else
          Except.ok (List.replicate gate_num (TypeConstr.allowed (gl.map get_gate_value)))
      else
        Except.ok (List.replicate gate_num TypeConstr.dflt)
  | none => Except.ok (List.replicate gate_num TypeConstr.dflt)

/-- Claim C6, counterexample.  An *empty* allowed-set is not rejected: the
encoder silently emits the default gate-type constraints (Python's truthiness
test skips the restricted branch entirely), instead of failing as the claim
requires. -/
theorem C6_empty_gate_list_counterexample :
    generate_type_constraints 3 (some []) =
      Except.ok [TypeConstr.dflt, TypeConstr.dflt, TypeConstr.dflt] := by rfl

/-- Claim C6 (corrected).  When the caller supplies a *non-empty* allowed
list of fewer than 17 names: if every name is in the catalogue, each of the
`gate_num` type-selector variables is constrained to the supplied gates'
encodings (exactly `gate_list` mapped through the catalogue lookup, and
nothing else); if some name is unknown, encoding fails with
`ValueError("Invalid gate types in gate_list")` before any solver call.
An empty list, however, silently selects the default constraints (see the
counterexample), as does a list of 17 or more names. -/
theorem C6_gate_type_constraints (gate_num : Nat) (gl : List String)
    (hne : gl ≠ []) (hlen : gl.length < 17) :
    (validate_gate_list gl = true →
      generate_type_constraints gate_num (some gl) =
        Except.ok (List.replicate gate_num (TypeConstr.allowed (gl.map get_gate_value)))) ∧
    (validate_gate_list gl = false →
      generate_type_constraints gate_num (some gl) =
        Except.error "Invalid gate types in gate_list") ∧
    (validate_gate_list gl = true ↔ ∀ t ∈ gl, t ∈ gate_types) := by
  have hpos : 0 < gl.length := List.length_pos.mpr hne
  have hdef : generate_type_constraints gate_num (some gl) =
      (if 0 < gl.length ∧ gl.length < 17 then
        if validate_gate_list gl = false then
          Except.error "Invalid gate types in gate_list"
        else
          Except.ok (List.replicate gate_num (TypeConstr.allowed (gl.map get_gate_value)))
      else Except.ok (List.replicate gate_num TypeConstr.dflt)) := rfl
  refine ⟨?_, ?_, ?_⟩
  · intro hv
    rw [hdef, if_pos ⟨hpos, hlen⟩, if_neg (by simp [hv])]
  · intro hv
    rw [hdef, if_pos ⟨hpos, hlen⟩, if_pos hv]
  · unfold validate_gate_list
    rw [List.all_eq_true]
    constructor
    · intro h t ht
      have := h t ht
      simpa using this
    · intro h t ht
      simpa using h t ht

/-- Witness for the corrected C6 at a concrete valid two-gate list. -/
theorem C6_gate_type_constraints_witness :
    (["XOR", "AND"] : List String) ≠ [] ∧
      (["XOR", "AND"] : List String).length < 17 ∧
      (validate_gate_list ["XOR", "AND"] = true →
        generate_type_constraints 2 (some ["XOR", "AND"]) =
          Except.ok (List.replicate 2 (TypeConstr.allowed
            (["XOR", "AND"].map get_gate_value)))) :=
  ⟨by decide, by decide,
    (C6_gate_type_constraints 2 ["XOR", "AND"] (by decide) (by decide)).1⟩

/-! ## src/gec_solver/stp_solver.py — verdict model

The subprocess call itself is external; its outcome (completed with
stdout/stderr/returncode, or `subprocess.TimeoutExpired`) is the input of
the model.  `_parse_result` is translated faithfully; the counterexample
parsing only fills the `counterexample` field and plays no role in the
claims, so the field is omitted. -/

/-- Python's `pat in s` for strings: `pat` occurs as a contiguous
substring of `s`. -/
def isPrefixB : List Char → List Char → Bool
  | [], _ => true
  | _ :: _, [] => false
  | c :: cs, d :: ds => c == d && isPrefixB cs ds

def containsSub : List Char → List Char → Bool
  | [], pat => isPrefixB pat []
  | s@(_ :: rest), pat => isPrefixB pat s || containsSub rest pat

def strContains (s pat : String) : Bool := containsSub s.data pat.data

/-- Embeds `SolverResult` (src/gec_solver/stp_solver.py, lines 15–24), without the
float `execution_time` and the `counterexample` dictionary, which the
claims do not mention. -/
structure StpResult where
  success : Bool
  satisfiable : Bool
  output : String
  error_message : Option String
deriving DecidableEq, Repr

/-- Embeds `STPSolver._parse_result` (lines 197–253): `"Invalid."` in the output
means satisfiable; else `"Valid."` means unsatisfiable; else a timeout
marker in the output returns the inconclusive
`success=False, satisfiable=False, error="Solver timeout"` record;
otherwise `success = (returncode == 0) or is_invalid` and stderr is
reported only on failure. -/
def parse_result (stdout stderr : String) (returncode : Int) : StpResult :=
  let is_invalid := strContains stdout "Invalid."
  let is_valid := !is_invalid && strContains stdout "Valid."
  let timed_out := !is_invalid && !is_valid &&
    (strContains stdout "Timed out" || strContains (stdout.map Char.toLower) "timeout")
  if timed_out then
    { success := false, satisfiable := false, output := stdout,
      error_message := some "Solver timeout" }
  else
    let is_satisfiable := is_invalid
    let success := (returncode == 0) || is_invalid
    { success := success, satisfiable := is_satisfiable, output := stdout,
      error_message := if stderr ≠ "" ∧ success = false then some stderr else none }

/-- Outcome of the external STP subprocess as seen by
`STPSolver.solve_file` (lines 71–130). -/
inductive ProcOutcome where
  | completed : String → String → Int → ProcOutcome
  | timedOut : ProcOutcome
deriving DecidableEq, Repr

/-- Embeds `STPSolver.solve_file`: a completed run is parsed; a
`subprocess.TimeoutExpired` is caught and returned as the inconclusive
`success=False, satisfiable=False, error_message="Solver timeout"` result
(lines 111–120) — the exception does not escape. -/
def solve_file : ProcOutcome → StpResult
  | ProcOutcome.completed out err rc => parse_result out err rc
  | ProcOutcome.timedOut =>
      { success := false, satisfiable := false, output := "",
        error_message := some "Solver timeout" }

/-! ## src/gec_solver/gec_optimizer.py — the search loop of `optimize_sbox`

The external solver is an oracle `solve gate_num structure ceiling → Bool`
(the satisfiability verdict of the encoded problem).  Per candidate,
`_solve_structure` (lines 241–320) first generates the CVC file — which can
raise `ValueError` from the gate-type constraints — and then records a
result dictionary; the parts of that dictionary the claims speak about
(gate count, structure, the cost ceiling passed to the encoder, the
verdict) form `GECEntry`. -/

structure GECEntry where
  gate_num : Nat
  depth_structure : List Nat
  ceiling : Nat
  satisfiable : Bool
deriving DecidableEq, Repr

/-- Embeds `GECOptimizer._solve_structure(sbox, gate_num, max_gec, depth,
structure, …)`: `generate_cvc_file` (which validates the gate list inside
`generate_trivial_constraints`) followed by the solver call.  Note the
ceiling passed along is always the caller's `max_gec`, unchanged. -/
def gec_solve_structure (solve : Nat → List Nat → Nat → Bool)
    (gate_num max_gec : Nat) (struct : List Nat)
    (gate_list : Option (List String)) : Except String GECEntry :=
  (generate_type_constraints gate_num gate_list).map fun _ =>
    { gate_num := gate_num, depth_structure := struct, ceiling := max_gec,
      satisfiable := solve gate_num struct max_gec }

/-- The inner structure loop of `GECOptimizer.optimize_sbox`
(lines 203–227): each result is appended; on the first satisfiable result
the loop breaks with that result as best. -/
def gec_struct_loop (solve : Nat → List Nat → Nat → Bool)
    (gate_list : Option (List String)) (gate_num max_gec : Nat) :
    List (List Nat) → Except String (List GECEntry × Option GECEntry)
  | [] => Except.ok ([], none)
  | s :: rest =>
      match gec_solve_structure solve gate_num max_gec s gate_list with
      | Except.error msg => Except.error msg
      | Except.ok e =>
          if e.satisfiable then Except.ok ([e], some e)
          else
            match gec_struct_loop solve gate_list gate_num max_gec rest with
            | Except.error msg => Except.error msg
            | Except.ok (es, best) => Except.ok (e :: es, best)

/-- The outer gate-count loop of `GECOptimizer.optimize_sbox`
(lines 191–230): gate counts descending; depth structures from
`generate_depth_combinations(gate_num, gate_num)`; the whole search stops
once a best result exists. -/
def gec_gate_loop (solve : Nat → List Nat → Nat → Bool)
    (gate_list : Option (List String)) (bit_num max_gec : Nat) :
    List Nat → Except String (List GECEntry × Option GECEntry)
  | [] => Except.ok ([], none)
  | g :: rest =>
      match gec_struct_loop solve gate_list g max_gec
          (generate_depth_combinations bit_num g g) with
      | Except.error msg => Except.error msg
      | Except.ok (es, some e) => Except.ok (es, some e)
      | Except.ok (es, none) =>
          match gec_gate_loop solve gate_list bit_num max_gec rest with
          | Except.error msg => Except.error msg
          | Except.ok (es2, best2) => Except.ok (es ++ es2, best2)

/-- Embeds `GECOptimizer.optimize_sbox(sbox, max_gates, max_gec, …)`
(lines 138–239): upfront S-box validation (raising on failure), then the
descending gate-count walk `max_gates, …, 1`. -/
def gec_optimize_sbox (bit_num : Nat) (solve : Nat → List Nat → Nat → Bool)
    (sbox : List Int) (max_gates max_gec : Nat)
    (gate_list : Option (List String)) :
    Except String (List GECEntry × Option GECEntry) :=
  if validate_sbox sbox bit_num = false then
    Except.error "Invalid S-box provided"
  else
    gec_gate_loop solve gate_list bit_num max_gec
      ((List.range max_gates).map fun k => max_gates - k)

theorem gec_solve_structure_ok (solve : Nat → List Nat → Nat → Bool)
    (g ceil : Nat) (s : List Nat) (gl : Option (List String)) (e : GECEntry)
    (h : gec_solve_structure solve g ceil s gl = Except.ok e) :
    e = { gate_num := g, depth_structure := s, ceiling := ceil,
          satisfiable := solve g s ceil } := by
  unfold gec_solve_structure at h
  cases hg : generate_type_constraints g gl with
  | error msg =>
    rw [hg] at h
    simp [Except.map] at h
  | ok t =>
    rw [hg] at h
    simp only [Except.map, Except.ok.injEq] at h
    exact h.symm

theorem mem_dropLast_append {α : Type} (x : α) (l1 l2 : List α)
    (h : x ∈ (l1 ++ l2).dropLast) : x ∈ l1 ∨ x ∈ l2.dropLast := by
  cases l2 with
  | nil =>
    rw [List.append_nil] at h
    exact Or.inl ((List.dropLast_sublist l1).subset h)
  | cons a t =>
    rw [List.dropLast_append_cons] at h
    rcases List.mem_append.mp h with h1 | h2
    · exact Or.inl h1
    · exact Or.inr h2

/-- Invariants of the inner structure loop: every recorded entry carries the
unchanged caller ceiling; all entries before the last are unsatisfiable (the
loop breaks at the first satisfiable one); a `best` is satisfiable and
recorded. -/
theorem gec_struct_loop_char (solve : Nat → List Nat → Nat → Bool)
    (gl : Option (List String)) (g ceil : Nat) :
    ∀ (ss : List (List Nat)) (es : List GECEntry) (best : Option GECEntry),
      gec_struct_loop solve gl g ceil ss = Except.ok (es, best) →
      (∀ e ∈ es, e.ceiling = ceil) ∧
      (∀ e ∈ es.dropLast, e.satisfiable = false) ∧
      (best = none → ∀ e ∈ es, e.satisfiable = false) ∧
      (∀ e, best = some e → (e.satisfiable = true ∧ e ∈ es)) := by
  intro ss
  induction ss with
  | nil =>
    intro es best h
    simp only [gec_struct_loop, Except.ok.injEq, Prod.mk.injEq] at h
    obtain ⟨rfl, rfl⟩ := h
    refine ⟨by simp, by simp, fun _ => by simp, fun e he => by simp at he⟩
  | cons s rest ih =>
    intro es best h
    simp only [gec_struct_loop] at h
    split at h
    · simp at h
    · rename_i e heq
      split at h
      · rename_i hsat
        simp only [Except.ok.injEq, Prod.mk.injEq] at h
        obtain ⟨rfl, rfl⟩ := h
        have he := gec_solve_structure_ok solve g ceil s gl e heq
        refine ⟨?_, ?_, ?_, ?_⟩
        · intro x hx
          rcases List.mem_singleton.mp hx with rfl
          rw [he]
        · intro x hx
          simp at hx
        · intro hb
          simp at hb
        · intro x hb
          obtain rfl := (Option.some.injEq _ _).mp hb
          exact ⟨hsat, List.mem_singleton.mpr rfl⟩
      · rename_i hsat
        split at h
        · simp at h
        · rename_i es' best' heq2
          simp only [Except.ok.injEq, Prod.mk.injEq] at h
          obtain ⟨rfl, rfl⟩ := h
          obtain ⟨ih1, ih2, ih3, ih4⟩ := ih es' best' heq2
          have he := gec_solve_structure_ok solve g ceil s gl e heq
          refine ⟨?_, ?_, ?_, ?_⟩
          · intro x hx
            rcases List.mem_cons.mp hx with rfl | hx'
            · rw [he]
            · exact ih1 x hx'
          · intro x hx
            cases es' with
            | nil => simp at hx
            | cons a t =>
              rw [List.dropLast_cons₂] at hx
              rcases List.mem_cons.mp hx with rfl | hx'
              · simpa using hsat
              · exact ih2 x hx'
          · intro hb x hx
            rcases List.mem_cons.mp hx with rfl | hx'
            · simpa using hsat
            · exact ih3 hb x hx'
          · intro x hb
            obtain ⟨hs, hm⟩ := ih4 x hb
            exact ⟨hs, List.mem_cons_of_mem _ hm⟩

/-- Same invariants lifted over the descending gate-count walk. -/
theorem gec_gate_loop_char (solve : Nat → List Nat → Nat → Bool)
    (gl : Option (List String)) (bit_num ceil : Nat) :
    ∀ (gs : List Nat) (es : List GECEntry) (best : Option GECEntry),
      gec_gate_loop solve gl bit_num ceil gs = Except.ok (es, best) →
      (∀ e ∈ es, e.ceiling = ceil) ∧
      (∀ e ∈ es.dropLast, e.satisfiable = false) ∧
      (∀ e, best = some e → e.satisfiable = true) := by
  intro gs
  induction gs with
  | nil =>
    intro es best h
    simp only [gec_gate_loop, Except.ok.injEq, Prod.mk.injEq] at h
    obtain ⟨rfl, rfl⟩ := h
    refine ⟨by simp, by simp, fun e he => by simp at he⟩
  | cons g rest ih =>
    intro es best h
    simp only [gec_gate_loop] at h
    split at h
    · simp at h
    · rename_i es1 e1 heq1
      simp only [Except.ok.injEq, Prod.mk.injEq] at h
      obtain ⟨rfl, rfl⟩ := h
      obtain ⟨l1, l2, -, l4⟩ := gec_struct_loop_char solve gl g ceil _ es1 (some e1) heq1
      exact ⟨l1, l2, fun x hb => (l4 x hb).1⟩
    · rename_i es1 heq1
      split at h
      · simp at h
      · rename_i es2 best2 heq2
        simp only [Except.ok.injEq, Prod.mk.injEq] at h
        obtain ⟨rfl, rfl⟩ := h
        obtain ⟨l1, l2, l3, -⟩ := gec_struct_loop_char solve gl g ceil _ es1 none heq1
        obtain ⟨m1, m2, m3⟩ := ih es2 best2 heq2
        refine ⟨?_, ?_, m3⟩
        · intro x hx
          rcases List.mem_append.mp hx with hx1 | hx2
          · exact l1 x hx1
          · exact m1 x hx2
        · intro x hx
          rcases mem_dropLast_append x es1 es2 hx with hx1 | hx2
          · exact l3 rfl x hx1
          · exact m2 x hx2

/-- Claim C2, counterexample.  With an always-satisfiable solver oracle,
`max_gates = 2` and caller ceiling `10`, the cost-minimizing search makes a
single solver call — at the unchanged ceiling 10 — and stops as soon as it
is satisfiable.  It never re-encodes with the accepted result's cost as a
new strict upper bound: no call with a ceiling below 10 ever happens,
contradicting the claimed continue-until-unsat ceiling tightening. -/
theorem C2_no_ceiling_tightening_counterexample :
    gec_optimize_sbox 3 (fun _ _ _ => true) [0, 1, 2, 3, 4, 5, 6, 7] 2 10 none =
      Except.ok ([⟨2, [2], 10, true⟩], some ⟨2, [2], 10, true⟩) ∧
    ¬ (∃ e ∈ [(⟨2, [2], 10, true⟩ : GECEntry)], e.ceiling < 10) := by
  constructor
  · rfl
  · decide

/-- Claim C2 (corrected).  In the cost-minimizing search every solver call
uses the caller-supplied ceiling `max_gec` unchanged (the encoder's cost
bound `GEC < max_gec mod 256` is fixed for the whole run); the search stops
at the first satisfiable candidate — every recorded attempt before the last
is unsatisfiable — and a returned best result is that satisfiable
candidate.  No re-encoding with a tightened ceiling takes place. -/
theorem C2_fixed_ceiling_stop_on_first (bit_num : Nat)
    (solve : Nat → List Nat → Nat → Bool) (sbox : List Int)
    (max_gates max_gec : Nat) (gl : Option (List String))
    (tr : List GECEntry) (best : Option GECEntry)
    (h : gec_optimize_sbox bit_num solve sbox max_gates max_gec gl =
      Except.ok (tr, best)) :
    (∀ e ∈ tr, e.ceiling = max_gec) ∧
    (∀ e ∈ tr.dropLast, e.satisfiable = false) ∧
    (∀ e, best = some e → e.satisfiable = true) := by
  unfold gec_optimize_sbox at h
  split at h
  · simp at h
  · exact gec_gate_loop_char solve gl bit_num max_gec _ tr best h

/-- Witness for the corrected C2 at the concrete run of the
counterexample. -/
theorem C2_fixed_ceiling_stop_on_first_witness :
    (∀ e ∈ [(⟨2, [2], 10, true⟩ : GECEntry)], e.ceiling = 10) ∧
    (∀ e ∈ ([(⟨2, [2], 10, true⟩ : GECEntry)]).dropLast, e.satisfiable = false) ∧
    (∀ e : GECEntry, some (⟨2, [2], 10, true⟩ : GECEntry) = some e →
      e.satisfiable = true) :=
  C2_fixed_ceiling_stop_on_first 3 (fun _ _ _ => true) [0, 1, 2, 3, 4, 5, 6, 7]
    2 10 none [⟨2, [2], 10, true⟩] (some ⟨2, [2], 10, true⟩) (by rfl)

/-! ## src/solver/bgc_optimizer.py — per-candidate error handling

`BGCOptimizer._solve_structure` (lines 482–547) wraps the whole candidate
body — CVC generation, solving, result writing — in `try/except`, returning
`None` on any exception; the caller (lines 374–395) skips a `None` result
(`if result:`) and continues with the next structure.  The candidate body
is abstracted as `inner`, an oracle that either produces a result record or
raises. -/

structure BGCEntry where
  gate_num : Nat
  depth_structure : List Nat
  satisfiable : Bool
deriving DecidableEq, Repr

/-- Embeds `BGCOptimizer._solve_structure`: the `try/except Exception` boundary —
an exception becomes `None`, a normal return is passed through. -/
def bgc_solve_structure (inner : List Nat → Except String BGCEntry)
    (struct : List Nat) : Option BGCEntry :=
  match inner struct with
  | Except.ok r => some r
  | Except.error _ => none

/-- The structure loop of `BGCOptimizer.optimize_sbox` (lines 374–395) with
`stop_on_first = True`: a `None` (failed) candidate is skipped and the walk
continues; a satisfiable result stops the loop. -/
def bgc_struct_loop (inner : List Nat → Except String BGCEntry) :
    List (List Nat) → List BGCEntry × Option BGCEntry
  | [] => ([], none)
  | s :: rest =>
      match bgc_solve_structure inner s with
      | none => bgc_struct_loop inner rest
      | some r =>
          if r.satisfiable then ([r], some r)
          else
            let p := bgc_struct_loop inner rest
            (r :: p.1, p.2)

/-- Claim C7, counterexample.  In the GEC optimizer the per-candidate body
`_solve_structure` has no `try/except`: an encoding error raised while
processing the first candidate — here an invalid gate name, detected inside
`generate_trivial_constraints` during the candidate's CVC generation —
propagates out of the `optimize_sbox` entry point (the S-box itself is
valid, so the failure occurs inside per-candidate processing, not in the
up-front configuration check). -/
theorem C7_gec_error_escapes_counterexample :
    gec_optimize_sbox 2 (fun _ _ _ => true) [0, 1, 2, 3] 1 5 (some ["BOGUS"]) =
      Except.error "Invalid gate types in gate_list" := by rfl

theorem generate_type_constraints_ok (gl : Option (List String))
    (hgl : gl = none ∨ ∃ l, gl = some l ∧ validate_gate_list l = true) :
    ∀ gn, ∃ t, generate_type_constraints gn gl = Except.ok t := by
  intro gn
  rcases hgl with rfl | ⟨l, rfl, hv⟩
  · exact ⟨_, rfl⟩
  · show ∃ t, (if 0 < l.length ∧ l.length < 17 then
        if validate_gate_list l = false then
          (Except.error "Invalid gate types in gate_list" : Except String (List TypeConstr))
        else Except.ok (List.replicate gn (TypeConstr.allowed (l.map get_gate_value)))
      else Except.ok (List.replicate gn TypeConstr.dflt)) = Except.ok t
    by_cases hc : 0 < l.length ∧ l.length < 17
    · rw [if_pos hc, if_neg (by simp [hv])]
      exact ⟨_, rfl⟩
    · rw [if_neg hc]
      exact ⟨_, rfl⟩

theorem gec_struct_loop_ok (solve : Nat → List Nat → Nat → Bool)
    (gl : Option (List String)) (g ceil : Nat)
    (hok : ∀ gn, ∃ t, generate_type_constraints gn gl = Except.ok t) :
    ∀ ss, ∃ r, gec_struct_loop solve gl g ceil ss = Except.ok r := by
  intro ss
  induction ss with
  | nil => exact ⟨([], none), rfl⟩
  | cons s rest ih =>
    obtain ⟨t, ht⟩ := hok g
    have hs : gec_solve_structure solve g ceil s gl =
        Except.ok ⟨g, s, ceil, solve g s ceil⟩ := by
      unfold gec_solve_structure
      rw [ht]
      rfl
    obtain ⟨⟨es, best⟩, hr⟩ := ih
    by_cases hsat : solve g s ceil = true
    · refine ⟨([⟨g, s, ceil, solve g s ceil⟩], some ⟨g, s, ceil, solve g s ceil⟩), ?_⟩
      simp only [gec_struct_loop, hs]
      simp [hsat]
    · refine ⟨(⟨g, s, ceil, solve g s ceil⟩ :: es, best), ?_⟩
      simp only [gec_struct_loop, hs, hr]
      simp [hsat]

theorem gec_gate_loop_ok (solve : Nat → List Nat → Nat → Bool)
    (gl : Option (List String)) (bit_num ceil : Nat)
    (hok : ∀ gn, ∃ t, generate_type_constraints gn gl = Except.ok t) :
    ∀ gs, ∃ r, gec_gate_loop solve gl bit_num ceil gs = Except.ok r := by
  intro gs
  induction gs with
  | nil => exact ⟨([], none), rfl⟩
  | cons g rest ih =>
    obtain ⟨⟨es, best⟩, hr⟩ :=
      gec_struct_loop_ok solve gl g ceil hok (generate_depth_combinations bit_num g g)
    obtain ⟨⟨es2, best2⟩, hr2⟩ := ih
    cases best with
    | some e =>
      refine ⟨(es, some e), ?_⟩
      simp only [gec_gate_loop, hr]
    | none =>
      refine ⟨(es ++ es2, best2), ?_⟩
      simp only [gec_gate_loop, hr, hr2]

/-- Claim C7 (corrected).  In the BGC optimizer every per-candidate error is
caught at the `_solve_structure` boundary and downgraded to a skipped
candidate, and the structure walk continues with the remaining candidates
(first conjunct).  In the GEC optimizer no exception escapes
`optimize_sbox` as long as the configuration is valid — gate list absent or
validating — (second conjunct); but a per-candidate encoding error from an
invalid gate list does propagate out, as the counterexample shows. -/
theorem C7_error_containment :
    (∀ (inner : List Nat → Except String BGCEntry) (s : List Nat)
        (rest : List (List Nat)) (msg : String),
      inner s = Except.error msg →
      bgc_struct_loop inner (s :: rest) = bgc_struct_loop inner rest) ∧
    (∀ (bit_num : Nat) (solve : Nat → List Nat → Nat → Bool) (sbox : List Int)
        (max_gates max_gec : Nat) (gl : Option (List String)),
      validate_sbox sbox bit_num = true →
      (gl = none ∨ ∃ l, gl = some l ∧ validate_gate_list l = true) →
      ∃ res, gec_optimize_sbox bit_num solve sbox max_gates max_gec gl =
        Except.ok res) := by
  constructor
  · intro inner s rest msg h
    simp only [bgc_struct_loop, bgc_solve_structure, h]
  · intro bit_num solve sbox max_gates max_gec gl hval hgl
    obtain ⟨r, hr⟩ :=
      gec_gate_loop_ok solve gl bit_num max_gec
        (generate_type_constraints_ok gl hgl)
        ((List.range max_gates).map fun k => max_gates - k)
    refine ⟨r, ?_⟩
    unfold gec_optimize_sbox
    rw [if_neg (by simp [hval]), hr]

/-- Witness for the corrected C7: a BGC candidate that raises is skipped and
the walk continues (concrete `inner` erroring on `[1]`), and a GEC run with
a valid S-box and no gate list returns normally. -/
theorem C7_error_containment_witness :
    ((fun _ : List Nat => (Except.error "boom" : Except String BGCEntry)) [1] =
      Except.error "boom") ∧
    (bgc_struct_loop (fun _ => Except.error "boom") [[1], [1, 1]] =
      bgc_struct_loop (fun _ => Except.error "boom") [[1, 1]]) ∧
    validate_sbox [0, 1, 2, 3] 2 = true ∧
    (∃ res, gec_optimize_sbox 2 (fun _ _ _ => true) [0, 1, 2, 3] 1 5 none =
      Except.ok res) :=
  ⟨rfl,
    C7_error_containment.1 (fun _ => Except.error "boom") [1] [[1, 1]] "boom" rfl,
    by decide,
    C7_error_containment.2 2 (fun _ _ _ => true) [0, 1, 2, 3] 1 5 none (by decide)
      (Or.inl rfl)⟩

/-- Claim C8 (confirmed).  A solver timeout produces the inconclusive
result `success=False, satisfiable=False, error_message="Solver timeout"`,
which differs from a genuine unsatisfiable verdict
(`"Valid."` output: `success=True, satisfiable=False, no error`); and in
the search loop a candidate whose verdict is not satisfiable — which is how
a timeout is recorded — never stops the walk: the remaining candidates are
still processed. -/
theorem C8_timeout_inconclusive :
    solve_file ProcOutcome.timedOut =
      { success := false, satisfiable := false, output := "",
        error_message := some "Solver timeout" } ∧
    solve_file (ProcOutcome.completed "Valid.\n" "" 0) =
      { success := true, satisfiable := false, output := "Valid.\n",
        error_message := none } ∧
    solve_file ProcOutcome.timedOut ≠
      solve_file (ProcOutcome.completed "Valid.\n" "" 0) ∧
    (∀ (solve : Nat → List Nat → Nat → Bool) (gl : Option (List String))
        (g ceil : Nat) (s : List Nat) (rest : List (List Nat)) (e : GECEntry),
      gec_solve_structure solve g ceil s gl = Except.ok e →
      e.satisfiable = false →
      gec_struct_loop solve gl g ceil (s :: rest) =
        (gec_struct_loop solve gl g ceil rest).map fun p => (e :: p.1, p.2)) := by
  refine ⟨rfl, by decide, by decide, ?_⟩
  intro solve gl g ceil s rest e h hsat
  simp only [gec_struct_loop, h]
  rw [if_neg (by simp [hsat])]
  cases hres : gec_struct_loop solve gl g ceil rest with
  | error msg => simp [Except.map]
  | ok p =>
    cases p with
    | mk es best => simp [Except.map]

/-- Witness for C8's continuation clause at a concrete unsatisfiable
(timeout-like) candidate. -/
theorem C8_timeout_inconclusive_witness :
    (gec_solve_structure (fun _ _ _ => false) 1 5 [1] none =
      Except.ok ⟨1, [1], 5, false⟩) ∧
    ((⟨1, [1], 5, false⟩ : GECEntry).satisfiable = false) ∧
    (gec_struct_loop (fun _ _ _ => false) none 1 5 [[1]] =
      (gec_struct_loop (fun _ _ _ => false) none 1 5 []).map
        fun p => ((⟨1, [1], 5, false⟩ : GECEntry) :: p.1, p.2)) :=
  ⟨rfl, rfl,
    C8_timeout_inconclusive.2.2.2 (fun _ _ _ => false) none 1 5 [1] []
      ⟨1, [1], 5, false⟩ rfl rfl⟩
